import Mathlib

/-!
Verification of the Workshop Thermal Camera frame-processing pipeline.

The definitions below are a shallow embedding of the CircuitPython sources
`src/cameras/amg88xx.py`, `src/bundle/wtc_display.py` and `src/bundle/code.py`.
Floating-point temperature and color-index values are modelled as rationals;
a cell of a ulab float array that may hold a non-finite value (NaN or an
infinity, produced by dividing by zero) is modelled as `Option ℚ` with `none`
standing for the non-finite result.  Two-dimensional ulab arrays are modelled
either as `List (List ℚ)` (when out-of-bounds indexing matters) or as total
functions `Nat → Nat → _` sampled over the array extents (when it does not).
-/

namespace WTC

/-- A two-dimensional ulab float array holding finite values, row list by
row list, `g[i][j]` being `(g.get? i) >>= (·.get? j)`. -/
abbrev Grid := List (List ℚ)

/-- A ulab float cell that may be non-finite: `some q` is the finite value `q`,
`none` models a non-finite float (NaN or an infinity).  In this code base the
only source of a non-finite value is the autofocus division by zero, whose
numerator is then also zero, i.e. an IEEE NaN. -/
abbrev FCell := Option ℚ

/-- Elementwise float addition; a non-finite operand contaminates the result,
as NaN does in IEEE arithmetic. -/
def fadd : FCell → FCell → FCell
  | some a, some b => some (a + b)
  | _, _ => none

/-- Float division.  Division by zero yields a non-finite result (`none`):
with a zero numerator, as in the autofocus path, IEEE gives NaN. -/
def fdiv : FCell → FCell → FCell
  | some a, some b => if b = 0 then none else some (a / b)
  | _, _ => none

/-- Float halving (`/= 2` on an array slice); NaN stays NaN. -/
def fhalf (x : FCell) : FCell := x.map (· / 2)

/-- One value through `np.clip(·, lo, hi)`: `min (max x lo) hi`. -/
def clipValue (x lo hi : ℚ) : ℚ := min (max x lo) hi

/-- `np.clip(np.array(sensor), lo, hi)` (amg88xx.py lines 108-110). -/
def npClip (g : Grid) (lo hi : ℚ) : Grid :=
  g.map fun row => row.map fun x => clipValue x lo hi

/-- `np.flip(a, axis=0)` (amg88xx.py line 114): reverse the row order. -/
def npFlip0 (g : Grid) : Grid := g.reverse

/-- `np.flip(a, axis=1)` (amg88xx.py line 115): reverse each row. -/
def npFlip1 (g : Grid) : Grid := g.map List.reverse

/-- `np.min` over the flattened array.  ulab raises on an empty array; the
model returns the junk value `0` there and theorems assume nonemptiness. -/
def npMin (l : List ℚ) : ℚ :=
  match l with
  | [] => 0
  | x :: xs => xs.foldl min x

/-- `np.max` over the flattened array (empty case as in `npMin`). -/
def npMax (l : List ℚ) : ℚ :=
  match l with
  | [] => 0
  | x :: xs => xs.foldl max x

/-- `np.mean` over the flattened array: sum divided by element count. -/
def npMean (l : List ℚ) : ℚ := l.sum / l.length

/-- `a[i][j]` on a 2-D list array; `none` when an index is out of range
(where ulab would raise an `IndexError`). -/
def gridGet (g : Grid) (i j : Nat) : Option ℚ :=
  (g.get? i).bind fun row => row.get? j

/-- `a[i][j]` on a 2-D array of possibly non-finite cells, collapsing an
out-of-range access (never taken by the theorems below) into `none`. -/
def fgridGet (g : List (List FCell)) (i j : Nat) : FCell :=
  ((g.get? i).bind fun row => row.get? j).join

/-- Sample a function-represented array into a list array of the given
extents (rows × cols). -/
def gridify (rows cols : Nat) (f : Nat → Nat → FCell) : List (List FCell) :=
  (List.range rows).map fun r => (List.range cols).map fun c => f r c

/-- The spectrum preloaded into `_grid_data` (amg88xx.py lines 46-51):
`np.array(range(N, 0, -1)).reshape(2W-1, 2H-1) / N` with
`N = (2W-1)*(2H-1)`, so position `(r, c)` holds `(N - (r*(2H-1)+c)) / N`. -/
def initSpectrum (W H : Nat) : Nat → Nat → FCell := fun r c =>
  let N : ℚ := ((2 * W - 1) * (2 * H - 1) : Nat)
  some ((N - ((r * (2 * H - 1) + c : Nat) : ℚ)) / N)

/-- `self._grid_data[::2, ::2] = self._sensor_data` (amg88xx.py line 135):
copy the sensor cells to the even-even positions of the `(2W-1)×(2H-1)`
grid array, leaving every other position of `g` unchanged. -/
def setEvenEven (W H : Nat) (g s : Nat → Nat → FCell) : Nat → Nat → FCell :=
  fun r c =>
    if r < 2 * W - 1 ∧ c < 2 * H - 1 ∧ r % 2 = 0 ∧ c % 2 = 0 then s (r / 2) (c / 2)
    else g r c

/-- The vertical interpolation pass (amg88xx.py lines 143-145):
`grid[1::2, ::2] = s[:-1, :]; grid[1::2, ::2] += s[1:, :]; grid[1::2, ::2] /= 2`,
i.e. each odd-row, even-column position `(2i+1, 2j)` becomes
`(s[i][j] + s[i+1][j]) / 2`.  Odd row `r` maps to source rows `r/2`, `r/2+1`. -/
def interpVertical (W H : Nat) (g s : Nat → Nat → FCell) : Nat → Nat → FCell :=
  fun r c =>
    if r < 2 * W - 1 ∧ c < 2 * H - 1 ∧ r % 2 = 1 ∧ c % 2 = 0 then
      fhalf (fadd (s (r / 2) (c / 2)) (s (r / 2 + 1) (c / 2)))
    else g r c

/-- The horizontal interpolation pass (amg88xx.py lines 146-148):
`grid[::, 1::2] = grid[::, :-1:2]; grid[::, 1::2] += grid[::, 2::2];
grid[::, 1::2] /= 2`, i.e. each odd-column position `(r, 2j+1)` becomes the
average of the already-computed neighbours `(r, 2j)` and `(r, 2j+2)` of the
grid left by the vertical pass (the right-hand slices read only even
columns, which the assignment does not touch). -/
def interpHorizontal (W H : Nat) (g : Nat → Nat → FCell) : Nat → Nat → FCell :=
  fun r c =>
    if r < 2 * W - 1 ∧ c < 2 * H - 1 ∧ c % 2 = 1 then
      fhalf (fadd (g r (c - 1)) (g r (c + 1)))
    else g r c

/-- `CameraAMG88xx._ulab_bilinear_interpolation` (amg88xx.py lines 140-148)
together with the copy on line 135: copy, then the vertical pass, then the
horizontal pass reading the vertical pass's output. -/
def ulab_bilinear_interpolation (W H : Nat) (g s : Nat → Nat → FCell) :
    Nat → Nat → FCell :=
  interpHorizontal W H (interpVertical W H (setEvenEven W H g s) s)

/-- The upscaled grid array as returned by `acquire` in the interpolating
configuration: the `(2W-1)×(2H-1)` array left in `_grid_data`. -/
def upscaled (W H : Nat) (g s : Nat → Nat → FCell) : List (List FCell) :=
  gridify (2 * W - 1) (2 * H - 1) (ulab_bilinear_interpolation W H g s)

/-- `CameraAMG88xx.acquire` (amg88xx.py lines 102-138) given the sensor
reading: clip to the configured range, flip both axes, take statistics,
normalize (per-frame min/max when autofocus is on, configured range
otherwise), and optionally upscale 2× by bilinear interpolation.  The source
fixes the sensor axis to `(8, 8)` (line 28); the model takes the axis `(W, H)`
as a parameter.  Returns (statistics, normalized grid). -/
def acquire (W H : Nat) (sensor : Grid) (range_min_c range_max_c : ℚ)
    (auto_focus interpolate : Bool) : (ℚ × ℚ × ℚ) × List (List FCell) :=
  let clipped := npClip sensor range_min_c range_max_c
  let flipped := npFlip1 (npFlip0 clipped)
  let flat := flipped.flatten
  let mn := npMin flat
  let avg := npMean flat
  let mx := npMax flat
  let normalized : List (List FCell) :=
    if auto_focus then
      flipped.map fun row => row.map fun x => fdiv (some (x - mn)) (some (mx - mn))
    else
      flipped.map fun row => row.map fun x =>
        fdiv (some (x - range_min_c)) (some (range_max_c - range_min_c))
  if interpolate then
    ((mn, avg, mx),
      upscaled W H (initSpectrum W H) (fun i j => fgridGet normalized i j))
  else
    ((mn, avg, mx), normalized)

/-! ### Display: color conversion -/

/-- `Display.rgb888_to_bgr888_tuple` (wtc_display.py lines 297-303): split an
RGB888 integer into its (blue, green, red) byte triple by shifting and
masking with `0xFF`. -/
def rgb888_to_bgr888_tuple (rgb_color : Nat) : Nat × Nat × Nat :=
  ((rgb_color >>> 0) &&& 0xFF, (rgb_color >>> 8) &&& 0xFF, (rgb_color >>> 16) &&& 0xFF)

/-! ### Display: image frame rendering -/

/-- Python's built-in `round` with `ndigits = 0` (round half to even) on a
rational, as used in `round(color_index * palette_size, 0)`. -/
def pyRound (x : ℚ) : ℤ :=
  let f := ⌊x⌋
  if x - f < 1 / 2 then f
  else if 1 / 2 < x - f then f + 1
  else if f % 2 = 0 then f else f + 1

/-- The palette-index quantization of `update_image_frame` (wtc_display.py
line 254): `round(color_index * palette_size, 0) / palette_size`. -/
def quantize (palette_size : Nat) (v : ℚ) : ℚ :=
  (pyRound (v * palette_size) : ℚ) / palette_size

/-- The RGB888 color computed for one source cell value (wtc_display.py
lines 253-255).  `index_to_rgb` is the palette lookup imported from
`index_to_rgb_iron`, which is not part of this repository; it is taken as
an arbitrary function parameter. -/
def cellColor (index_to_rgb : ℚ → Nat) (palette_size : Nat) (v : ℚ) : Nat :=
  index_to_rgb (quantize palette_size v)

/-- The `(col, row)` visit order of the `update_image_frame` double loop
(wtc_display.py lines 247-248): `for _col in range(a0): for _row in
range(a1)`. -/
def framePairs (a0 a1 : Nat) : List (Nat × Nat) :=
  (List.range a0).flatMap fun c => (List.range a1).map fun r => (c, r)

/-- The source index read for destination row `r` (wtc_display.py lines
249-252): `grid_data[_col][_grid_axis[1] - 1 - _row]` when `selfie`, else
`grid_data[_col][_row]`. -/
def sourceRow (a1 : Nat) (selfie : Bool) (r : Nat) : Nat :=
  if selfie then a1 - 1 - r else r

/-- One iteration of the `update_image_frame` loop body at `(col, row)`
(wtc_display.py lines 249-258): read the source cell, compute its color,
and store it at group index `col * a1 + row` only if it differs from the
fill already stored there.  The state is the image-group fill assignment
together with a count of cell writes (the mutation counter of the spec's
diff-only contract); `none` models the `IndexError` of an out-of-range
read. -/
def frameStep (index_to_rgb : ℚ → Nat) (a1 palette_size : Nat) (grid : Grid)
    (selfie : Bool) (st : (Nat → Nat) × Nat) (p : Nat × Nat) :
    Option ((Nat → Nat) × Nat) :=
  match gridGet grid p.1 (sourceRow a1 selfie p.2) with
  | none => none
  | some v =>
    let color := cellColor index_to_rgb palette_size v
    let gi := p.1 * a1 + p.2
    if st.1 gi ≠ color then some (Function.update st.1 gi color, st.2 + 1)
    else some st

/-- The `update_image_frame` double loop over a list of `(col, row)`
pairs, threading the display state and stopping at the first failed read. -/
def frameLoop (index_to_rgb : ℚ → Nat) (a1 palette_size : Nat) (grid : Grid)
    (selfie : Bool) : List (Nat × Nat) → (Nat → Nat) × Nat →
    Option ((Nat → Nat) × Nat)
  | [], st => some st
  | p :: rest, st =>
    match frameStep index_to_rgb a1 palette_size grid selfie st p with
    | none => none
    | some st' => frameLoop index_to_rgb a1 palette_size grid selfie rest st'

/-- `Display.update_image_frame` (wtc_display.py lines 240-258): the image
group starts from the fill colors `cells`; the result is the final fill
assignment and the number of cell writes, or `none` when some source read
raises `IndexError`.  `a0, a1` are `_grid_axis`. -/
def update_image_frame (index_to_rgb : ℚ → Nat) (a0 a1 palette_size : Nat)
    (grid : Grid) (selfie : Bool) (cells : Nat → Nat) :
    Option ((Nat → Nat) × Nat) :=
  frameLoop index_to_rgb a1 palette_size grid selfie (framePairs a0 a1) (cells, 0)

/-! ### Bitmap encoder -/

/-- `struct.pack("<I", n)`: four little-endian bytes. -/
def pack32 (n : Nat) : List Nat :=
  [n % 256, n / 256 % 256, n / 256 ^ 2 % 256, n / 256 ^ 3 % 256]

/-- `struct.pack("<H", n)`: two little-endian bytes. -/
def pack16 (n : Nat) : List Nat := [n % 256, n / 256 % 256]

/-- `Display.bytes_per_row` (wtc_display.py lines 290-295): three bytes per
pixel plus padding to a four-byte boundary. -/
def bytes_per_row (source_width : Nat) : Nat :=
  let pixel_bytes := 3 * source_width
  let padding_bytes := (4 - pixel_bytes % 4) % 4
  pixel_bytes + padding_bytes

/-- The three bytes a stored color contributes to a bitmap row, in BGR
order, via `rgb888_to_bgr888_tuple`. -/
def bgrBytes (rgb : Nat) : List Nat :=
  [(rgb888_to_bgr888_tuple rgb).1, (rgb888_to_bgr888_tuple rgb).2.1,
    (rgb888_to_bgr888_tuple rgb).2.2]

/-- The `fetch_grid_row_bgr_colors` loop (wtc_display.py lines 317-324):
for each visited column, write the three BGR bytes of the cell at group
index `rowBase + c` at consecutive buffer positions. -/
def fillRowBuffer (cells : Nat → Nat) (rowBase : Nat) :
    List Nat → Nat → List Nat → List Nat
  | buf, _, [] => buf
  | buf, idx, c :: rest =>
    fillRowBuffer cells rowBase
      (((buf.set idx (rgb888_to_bgr888_tuple (cells (rowBase + c))).1).set
          (idx + 1) (rgb888_to_bgr888_tuple (cells (rowBase + c))).2.1).set
        (idx + 2) (rgb888_to_bgr888_tuple (cells (rowBase + c))).2.2)
      (idx + 3) rest

/-- `Display.fetch_grid_row_bgr_colors` (wtc_display.py lines 305-325): a
zeroed buffer of `bytes_per_row a0` bytes filled with the BGR bytes of row
`row`'s cells, the columns visited in reverse order when `selfie`. -/
def fetch_grid_row_bgr_colors (a0 a1 : Nat) (cells : Nat → Nat) (row : Nat)
    (selfie : Bool) : List Nat :=
  fillRowBuffer cells (row * a1) (List.replicate (bytes_per_row a0) 0) 0
    (if selfie then (List.range a0).reverse else List.range a0)

/-- The bitmap built by `capture_grid_and_upload` (code.py lines 175-209):
`"BM"`, little-endian 32-bit file size, two reserved 16-bit zero fields,
little-endian 32-bit offset 54; DIB header size 40, width, height, planes
1, bits-per-pixel 24, 24 zero bytes; then the grid rows fetched from
`height − 1` down to `0`. -/
def capture_grid_bmp (a0 a1 : Nat) (cells : Nat → Nat) (selfie : Bool) :
    List Nat :=
  let width := a0
  let height := a1
  let file_size := 54 + height * bytes_per_row width
  let bmp_header := [66, 77] ++ pack32 file_size ++ [0, 0] ++ [0, 0] ++ pack32 54
  let dib_header := pack32 40 ++ pack32 width ++ pack32 height ++ pack16 1 ++
    pack16 24 ++ List.replicate 24 0
  let grid_bmp_data := ((List.range height).reverse).flatMap fun r =>
    fetch_grid_row_bgr_colors a0 a1 cells r selfie
  bmp_header ++ dib_header ++ grid_bmp_data

/-! ### Histogram frame -/

/-- Modelled from the spec: `simpleio.map_range`, the external library
helper used by `update_histo_frame` (wtc_display.py line 270) to re-map a
value linearly from `[in_min, in_max]` into `[out_min, out_max]`, clamped
to the output bounds. -/
def map_range (x in_min in_max out_min out_max : ℚ) : ℚ :=
  let mapped := (x - in_min) * (out_max - out_min) / (in_max - in_min) + out_min
  if out_min ≤ out_max then max (min mapped out_max) out_min
  else min (max mapped out_max) out_min

/-- Python `int(·)` on a float value: truncation toward zero. -/
def pyInt (q : ℚ) : ℤ := if q < 0 then ⌈q⌉ else ⌊q⌋

/-- `grid_data[_col, _row]` as read by `update_histo_frame`; theorems are
stated for grids that cover the visited index range, where the default is
never taken. -/
def gridGetD (g : Grid) (i j : Nat) : ℚ := (gridGet g i j).getD 0

/-- The histogram bin chosen for one grid value (wtc_display.py lines
269-271): `int(map_range(v, 0, 1, 0, grid_axis[0] - 1))`. -/
def histoIndex (a0 : Nat) (v : ℚ) : Nat :=
  (pyInt (map_range v 0 1 0 ((a0 : ℚ) - 1))).toNat

/-- The `(row, col)` visit order of the histogram accumulation loop
(wtc_display.py lines 267-268). -/
def histoPairs (a0 a1 : Nat) : List (Nat × Nat) :=
  (List.range a1).flatMap fun r => (List.range a0).map fun c => (r, c)

/-- The histogram accumulated by `update_histo_frame` (wtc_display.py
lines 265-272): a zeroed float array of `grid_axis[0]` bins, one increment
per grid cell. -/
def buildHisto (a0 a1 : Nat) (grid : Grid) : List ℚ :=
  (histoPairs a0 a1).foldl
    (fun h p =>
      h.set (histoIndex a0 (gridGetD grid p.2 p.1))
        (h.getD (histoIndex a0 (gridGetD grid p.2 p.1)) 0 + 1))
    (List.replicate a0 (0 : ℚ))

/-- The bar-height divisor of `update_histo_frame` (wtc_display.py lines
274-276): `np.max(histogram) / (grid_axis[0] - 1)`, replaced by `1` when
not positive. -/
def histo_scale_used (a0 a1 : Nat) (grid : Grid) : ℚ :=
  let histo_scale := npMax (buildHisto a0 a1 grid) / ((a0 : ℚ) - 1)
  if histo_scale ≤ 0 then 1 else histo_scale


/-! ### Statistics helper lemmas -/

theorem foldl_min_mem (xs : List ℚ) : ∀ a : ℚ, xs.foldl min a ∈ a :: xs := by
  induction xs with
  | nil => intro a; simp
  | cons x xs ih =>
    intro a
    rw [List.foldl_cons]
    rcases List.mem_cons.mp (ih (min a x)) with h' | h'
    · rw [h']
      rcases min_choice a x with hc | hc
      · rw [hc]; exact List.mem_cons_self _ _
      · rw [hc]; exact List.mem_cons_of_mem _ (List.mem_cons_self _ _)
    · exact List.mem_cons_of_mem _ (List.mem_cons_of_mem _ h')

theorem foldl_min_le (xs : List ℚ) :
    ∀ a : ℚ, ∀ y ∈ a :: xs, xs.foldl min a ≤ y := by
  induction xs with
  | nil =>
    intro a y hy
    rw [List.foldl_nil]
    simp at hy
    rw [hy]
  | cons x xs ih =>
    intro a y hy
    rw [List.foldl_cons]
    rcases List.mem_cons.mp hy with rfl | h'
    · exact le_trans (ih (min y x) _ (List.mem_cons_self _ _)) (min_le_left y x)
    · rcases List.mem_cons.mp h' with rfl | h''
      · exact le_trans (ih (min a y) _ (List.mem_cons_self _ _)) (min_le_right a y)
      · exact ih (min a x) y (List.mem_cons_of_mem _ h'')

theorem foldl_max_mem (xs : List ℚ) : ∀ a : ℚ, xs.foldl max a ∈ a :: xs := by
  induction xs with
  | nil => intro a; simp
  | cons x xs ih =>
    intro a
    rw [List.foldl_cons]
    rcases List.mem_cons.mp (ih (max a x)) with h' | h'
    · rw [h']
      rcases max_choice a x with hc | hc
      · rw [hc]; exact List.mem_cons_self _ _
      · rw [hc]; exact List.mem_cons_of_mem _ (List.mem_cons_self _ _)
    · exact List.mem_cons_of_mem _ (List.mem_cons_of_mem _ h')

theorem le_foldl_max (xs : List ℚ) :
    ∀ a : ℚ, ∀ y ∈ a :: xs, y ≤ xs.foldl max a := by
  induction xs with
  | nil =>
    intro a y hy
    rw [List.foldl_nil]
    simp at hy
    rw [hy]
  | cons x xs ih =>
    intro a y hy
    rw [List.foldl_cons]
    rcases List.mem_cons.mp hy with rfl | h'
    · exact le_trans (le_max_left y x) (ih (max y x) _ (List.mem_cons_self _ _))
    · rcases List.mem_cons.mp h' with rfl | h''
      · exact le_trans (le_max_right a y) (ih (max a y) _ (List.mem_cons_self _ _))
      · exact ih (max a x) y (List.mem_cons_of_mem _ h'')

theorem npMin_mem {l : List ℚ} (h : l ≠ []) : npMin l ∈ l := by
  cases l with
  | nil => exact absurd rfl h
  | cons x xs => exact foldl_min_mem xs x


theorem npMin_le {l : List ℚ} : ∀ y ∈ l, npMin l ≤ y := by
  cases l with
  | nil => intro y hy; simp at hy
  | cons x xs => exact foldl_min_le xs x

theorem npMax_mem {l : List ℚ} (h : l ≠ []) : npMax l ∈ l := by
  cases l with
  | nil => exact absurd rfl h
  | cons x xs => exact foldl_max_mem xs x

theorem le_npMax {l : List ℚ} : ∀ y ∈ l, y ≤ npMax l := by
  cases l with
  | nil => intro y hy; simp at hy
  | cons x xs => exact le_foldl_max xs x

theorem perm_ne_nil {l₁ l₂ : List ℚ} (h : l₁.Perm l₂) (hne : l₁ ≠ []) :
    l₂ ≠ [] := by
  intro h'
  subst h'
  exact hne h.eq_nil

theorem npMin_perm {l₁ l₂ : List ℚ} (h : l₁.Perm l₂) (hne : l₁ ≠ []) :
    npMin l₁ = npMin l₂ :=
  le_antisymm
    (npMin_le _ (h.mem_iff.mpr (npMin_mem (perm_ne_nil h hne))))
    (npMin_le _ (h.mem_iff.mp (npMin_mem hne)))

theorem npMax_perm {l₁ l₂ : List ℚ} (h : l₁.Perm l₂) (hne : l₁ ≠ []) :
    npMax l₁ = npMax l₂ :=
  le_antisymm
    (le_npMax _ (h.mem_iff.mp (npMax_mem hne)))
    (le_npMax _ (h.mem_iff.mpr (npMax_mem (perm_ne_nil h hne))))

theorem npMean_perm {l₁ l₂ : List ℚ} (h : l₁.Perm l₂) :
    npMean l₁ = npMean l₂ := by
  unfold npMean
  rw [h.sum_eq, h.length_eq]

theorem flatten_reverse_perm (g : Grid) : g.reverse.flatten.Perm g.flatten := by
  induction g with
  | nil => simp
  | cons a g ih =>
    simp only [List.reverse_cons, List.flatten_append, List.flatten_cons]
    have h1 : (g.reverse.flatten ++ [a].flatten).Perm ([a].flatten ++ g.reverse.flatten) :=
      List.perm_append_comm
    have h2 : ([a].flatten ++ g.reverse.flatten).Perm ([a].flatten ++ g.flatten) :=
      List.Perm.append_left _ ih
    simpa using h1.trans h2

theorem flatten_map_reverse_perm (g : Grid) :
    (g.map List.reverse).flatten.Perm g.flatten := by
  induction g with
  | nil => simp
  | cons a g ih =>
    simp only [List.map_cons, List.flatten_cons]
    exact List.Perm.append (List.reverse_perm a) ih

/-- The doubly flipped grid holds the same multiset of values as the
clipped grid. -/
theorem flipped_flatten_perm (g : Grid) :
    (npFlip1 (npFlip0 g)).flatten.Perm g.flatten := by
  unfold npFlip1 npFlip0
  exact (flatten_map_reverse_perm g.reverse).trans (flatten_reverse_perm g)

theorem flatten_map_map {α β : Type} (f : α → β) (g : List (List α)) :
    (g.map (List.map f)).flatten = g.flatten.map f := by
  induction g with
  | nil => rfl
  | cons a g ih => simp only [List.map_cons, List.flatten_cons, List.map_append, ih]

theorem npClip_flatten (g : Grid) (lo hi : ℚ) :
    (npClip g lo hi).flatten = g.flatten.map fun x => clipValue x lo hi :=
  flatten_map_map (fun x => clipValue x lo hi) g

/-- The statistics component of `acquire`, before undoing the flips. -/
theorem acquire_fst (W H : Nat) (sensor : Grid) (lo hi : ℚ) (af ip : Bool) :
    (acquire W H sensor lo hi af ip).1 =
      (npMin (npFlip1 (npFlip0 (npClip sensor lo hi))).flatten,
       npMean (npFlip1 (npFlip0 (npClip sensor lo hi))).flatten,
       npMax (npFlip1 (npFlip0 (npClip sensor lo hi))).flatten) := by
  cases ip <;> rfl

set_option maxRecDepth 4000 in
/-- C7: after every acquisition the Statistics triple is the minimum, the
arithmetic mean and the maximum, in Celsius, of the clipped sample grid
(amg88xx.py lines 108-120); the triple does not depend on the autofocus
flag, whose rescaling runs after the statistics are taken; and for the 2×2
sample `[[10,20],[30,40]]` with range `[0,80]` the statistics are
`(10, 25, 40)`. -/
theorem acquire_statistics_correct (W H : Nat) (sensor : Grid) (lo hi : ℚ)
    (af ip : Bool) (h : sensor.flatten ≠ []) :
    ((acquire W H sensor lo hi af ip).1 =
       (npMin (npClip sensor lo hi).flatten, npMean (npClip sensor lo hi).flatten,
        npMax (npClip sensor lo hi).flatten)) ∧
    (acquire W H sensor lo hi af ip).1 = (acquire W H sensor lo hi (!af) ip).1 ∧
    (acquire 2 2 [[10, 20], [30, 40]] 0 80 af ip).1 = (10, 25, 40) := by
  have hclip : (npClip sensor lo hi).flatten ≠ [] := by
    rw [npClip_flatten]
    intro h'
    exact h (List.map_eq_nil_iff.mp h')
  have hperm := flipped_flatten_perm (npClip sensor lo hi)
  have hne : (npFlip1 (npFlip0 (npClip sensor lo hi))).flatten ≠ [] :=
    perm_ne_nil hperm.symm hclip
  refine ⟨?_, ?_, ?_⟩
  · rw [acquire_fst, npMin_perm hperm hne, npMax_perm hperm hne, npMean_perm hperm]
  · rw [acquire_fst, acquire_fst]
  · cases af <;> cases ip <;> with_unfolding_all decide

/-- C7 witness: the theorem applied to the 2×2 sample grid of the spec's
statistics test. -/
theorem acquire_statistics_correct_witness :
    ((acquire 2 2 [[10, 20], [30, 40]] 0 80 true true).1 =
       (npMin (npClip [[10, 20], [30, 40]] 0 80).flatten,
        npMean (npClip [[10, 20], [30, 40]] 0 80).flatten,
        npMax (npClip [[10, 20], [30, 40]] 0 80).flatten)) ∧
    (acquire 2 2 [[10, 20], [30, 40]] 0 80 true true).1 =
      (acquire 2 2 [[10, 20], [30, 40]] 0 80 (!true) true).1 ∧
    (acquire 2 2 [[10, 20], [30, 40]] 0 80 true true).1 = (10, 25, 40) :=
  acquire_statistics_correct 2 2 [[10, 20], [30, 40]] 0 80 true true
    (by with_unfolding_all decide)

set_option maxRecDepth 100000 in
/-- C1 (code bug): acquiring a uniform scene with autofocus enabled divides
zero by zero (amg88xx.py lines 122-126).  The spec requires every
normalized cell to be `0.0`; the code instead leaves every cell non-finite
(IEEE NaN, modelled `none`), with the statistics correctly `(25, 25, 25)`
and no exception raised.  Evaluated at the deployed configuration: 8×8
sensor, range `[0, 80]`, autofocus and interpolation on, all samples 25 °C. -/
theorem acquire_uniform_autofocus_nan :
    acquire 8 8 (List.replicate 8 (List.replicate 8 (25 : ℚ))) 0 80 true true =
      ((25, 25, 25), List.replicate 15 (List.replicate 15 (none : FCell))) := by
  with_unfolding_all decide

/-- C2: the 2× bilinear upscaler produces a `(2W−1)×(2H−1)` grid in which
even-even cells copy the source exactly, odd-row even-column cells are the
average of the two vertically adjacent source cells, and odd-column cells
are the average of the two horizontally adjacent cells of the upscaled grid
itself, the vertical pass having completed before the horizontal pass reads
from it (amg88xx.py lines 133-148).  `g` is the arbitrary previous content
of `_grid_data`; the source grid `s` holds finite values. -/
theorem bilinear_upscaler_correct (W H : Nat) (g : Nat → Nat → FCell)
    (s : Nat → Nat → ℚ) (i j r : Nat) :
    (upscaled W H g (fun a b => some (s a b))).length = 2 * W - 1 ∧
    (∀ row ∈ upscaled W H g (fun a b => some (s a b)), row.length = 2 * H - 1) ∧
    (i < W → j < H →
      ulab_bilinear_interpolation W H g (fun a b => some (s a b)) (2 * i) (2 * j)
        = some (s i j)) ∧
    (i + 1 < W → j < H →
      ulab_bilinear_interpolation W H g (fun a b => some (s a b)) (2 * i + 1) (2 * j)
        = some ((s i j + s (i + 1) j) / 2)) ∧
    (r < 2 * W - 1 → j + 1 < H →
      ulab_bilinear_interpolation W H g (fun a b => some (s a b)) r (2 * j + 1)
        = fhalf (fadd
            (ulab_bilinear_interpolation W H g (fun a b => some (s a b)) r (2 * j))
            (ulab_bilinear_interpolation W H g (fun a b => some (s a b)) r
              (2 * j + 2)))) := by
  refine ⟨?_, ?_, ?_, ?_, ?_⟩
  · simp [upscaled, gridify]
  · intro row hrow
    simp only [upscaled, gridify, List.mem_map] at hrow
    obtain ⟨r', _, rfl⟩ := hrow
    simp
  · intro hi hj
    unfold ulab_bilinear_interpolation interpHorizontal interpVertical setEvenEven
    rw [if_neg (by omega : ¬(2 * i < 2 * W - 1 ∧ 2 * j < 2 * H - 1 ∧ (2 * j) % 2 = 1)),
      if_neg (by omega :
        ¬(2 * i < 2 * W - 1 ∧ 2 * j < 2 * H - 1 ∧ (2 * i) % 2 = 1 ∧ (2 * j) % 2 = 0)),
      if_pos (by omega :
        2 * i < 2 * W - 1 ∧ 2 * j < 2 * H - 1 ∧ (2 * i) % 2 = 0 ∧ (2 * j) % 2 = 0)]
    show some (s (2 * i / 2) (2 * j / 2)) = some (s i j)
    have e1 : 2 * i / 2 = i := by omega
    have e2 : 2 * j / 2 = j := by omega
    rw [e1, e2]
  · intro hi hj
    unfold ulab_bilinear_interpolation interpHorizontal interpVertical
    rw [if_neg (by omega :
        ¬(2 * i + 1 < 2 * W - 1 ∧ 2 * j < 2 * H - 1 ∧ (2 * j) % 2 = 1)),
      if_pos (by omega :
        2 * i + 1 < 2 * W - 1 ∧ 2 * j < 2 * H - 1 ∧ (2 * i + 1) % 2 = 1 ∧
          (2 * j) % 2 = 0)]
    show fhalf (fadd (some (s ((2 * i + 1) / 2) (2 * j / 2)))
        (some (s ((2 * i + 1) / 2 + 1) (2 * j / 2)))) = some ((s i j + s (i + 1) j) / 2)
    have e1 : (2 * i + 1) / 2 = i := by omega
    have e2 : 2 * j / 2 = j := by omega
    rw [e1, e2]
    rfl
  · intro hr hj
    unfold ulab_bilinear_interpolation interpHorizontal
    rw [if_pos (by omega : r < 2 * W - 1 ∧ 2 * j + 1 < 2 * H - 1 ∧ (2 * j + 1) % 2 = 1),
      if_neg (by omega : ¬(r < 2 * W - 1 ∧ 2 * j < 2 * H - 1 ∧ (2 * j) % 2 = 1)),
      if_neg (by omega : ¬(r < 2 * W - 1 ∧ 2 * j + 2 < 2 * H - 1 ∧ (2 * j + 2) % 2 = 1))]
    have e1 : 2 * j + 1 - 1 = 2 * j := by omega
    have e2 : 2 * j + 1 + 1 = 2 * j + 2 := by omega
    rw [e1, e2]

/-- C2 witness: the upscaler identities at the corner of a concrete 2×2
source grid `s a b = a * 2 + b`, with the preloaded grid all-NaN. -/
theorem bilinear_upscaler_correct_witness :
    (ulab_bilinear_interpolation 2 2 (fun _ _ => none)
        (fun a b => some (((a * 2 + b : Nat) : ℚ))) (2 * 0) (2 * 0)
      = some (((0 * 2 + 0 : Nat) : ℚ))) ∧
    (ulab_bilinear_interpolation 2 2 (fun _ _ => none)
        (fun a b => some (((a * 2 + b : Nat) : ℚ))) (2 * 0 + 1) (2 * 0)
      = some ((((0 * 2 + 0 : Nat) : ℚ) + (((0 + 1) * 2 + 0 : Nat) : ℚ)) / 2)) ∧
    (ulab_bilinear_interpolation 2 2 (fun _ _ => none)
        (fun a b => some (((a * 2 + b : Nat) : ℚ))) 1 (2 * 0 + 1)
      = fhalf (fadd
          (ulab_bilinear_interpolation 2 2 (fun _ _ => none)
            (fun a b => some (((a * 2 + b : Nat) : ℚ))) 1 (2 * 0))
          (ulab_bilinear_interpolation 2 2 (fun _ _ => none)
            (fun a b => some (((a * 2 + b : Nat) : ℚ))) 1 (2 * 0 + 2)))) :=
  ⟨(bilinear_upscaler_correct 2 2 (fun _ _ => none)
      (fun a b => ((a * 2 + b : Nat) : ℚ)) 0 0 1).2.2.1 (by decide) (by decide),
   (bilinear_upscaler_correct 2 2 (fun _ _ => none)
      (fun a b => ((a * 2 + b : Nat) : ℚ)) 0 0 1).2.2.2.1 (by decide) (by decide),
   (bilinear_upscaler_correct 2 2 (fun _ _ => none)
      (fun a b => ((a * 2 + b : Nat) : ℚ)) 0 0 1).2.2.2.2 (by decide) (by decide)⟩

theorem mask_byte_mod_two_pow_24 (n k : Nat) (hk : k + 8 ≤ 24) :
    (n % 2 ^ 24) >>> k &&& 255 = n >>> k &&& 255 := by
  apply Nat.eq_of_testBit_eq
  intro i
  have h255 : (255 : Nat) = 2 ^ 8 - 1 := by norm_num
  rw [h255]
  simp only [Nat.testBit_land, Nat.testBit_shiftRight, Nat.testBit_mod_two_pow,
    Nat.testBit_two_pow_sub_one]
  by_cases h8 : i < 8
  · have : k + i < 24 := by omega
    simp [this, h8]
  · simp [h8]

/-- C10: for `rgb_color < 2^24` the returned (blue, green, red) components
are bytes and reassemble to the input via `(red <<< 16) ||| (green <<< 8)
||| blue`; bits at or above bit 24 are discarded, each component being
masked with `0xFF`. -/
theorem rgb888_to_bgr888_correct (n : Nat) :
    (n < 2 ^ 24 →
      (rgb888_to_bgr888_tuple n).1 ≤ 255 ∧
      (rgb888_to_bgr888_tuple n).2.1 ≤ 255 ∧
      (rgb888_to_bgr888_tuple n).2.2 ≤ 255 ∧
      ((rgb888_to_bgr888_tuple n).2.2 <<< 16 |||
        ((rgb888_to_bgr888_tuple n).2.1 <<< 8) |||
        (rgb888_to_bgr888_tuple n).1) = n) ∧
    rgb888_to_bgr888_tuple n = rgb888_to_bgr888_tuple (n % 2 ^ 24) := by
  constructor
  · intro hn
    refine ⟨Nat.and_le_right, Nat.and_le_right, Nat.and_le_right, ?_⟩
    apply Nat.eq_of_testBit_eq
    intro i
    have h255 : (255 : Nat) = 2 ^ 8 - 1 := by norm_num
    simp only [rgb888_to_bgr888_tuple, h255, Nat.testBit_lor, Nat.testBit_land,
      Nat.testBit_shiftLeft, Nat.testBit_shiftRight, Nat.testBit_two_pow_sub_one,
      Nat.shiftRight_zero, ge_iff_le]
    by_cases h8 : i < 8
    · have e0 : ¬ 8 ≤ i := by omega
      have e1 : ¬ 16 ≤ i := by omega
      simp [h8, e0, e1]
    · by_cases h16 : i < 16
      · have e0 : 8 ≤ i := by omega
        have e1 : ¬ 16 ≤ i := by omega
        have e2 : 8 + (i - 8) = i := by omega
        have e3 : i - 8 < 8 := by omega
        simp [e0, e1, e2, e3]
      · by_cases h24 : i < 24
        · have e0 : 16 ≤ i := by omega
          have e1 : 16 + (i - 16) = i := by omega
          have e2 : i - 16 < 8 := by omega
          have e3 : ¬ i - 8 < 8 := by omega
          simp [e0, e1, e2, e3, h8]
        · have e0 : ¬ i - 16 < 8 := by omega
          have e1 : ¬ i - 8 < 8 := by omega
          have e2 : n.testBit i = false :=
            Nat.testBit_eq_false_of_lt (lt_of_lt_of_le hn (Nat.pow_le_pow_right (by norm_num) (by omega)))
          simp [e0, e1, e2, h8]
  · unfold rgb888_to_bgr888_tuple
    rw [mask_byte_mod_two_pow_24 n 0 (by omega), mask_byte_mod_two_pow_24 n 8 (by omega),
      mask_byte_mod_two_pow_24 n 16 (by omega)]

/-- C10 witness: the theorem applied at the concrete color `0x123456`. -/
theorem rgb888_to_bgr888_correct_witness :
    (rgb888_to_bgr888_tuple 0x123456).1 ≤ 255 ∧
    (rgb888_to_bgr888_tuple 0x123456).2.1 ≤ 255 ∧
    (rgb888_to_bgr888_tuple 0x123456).2.2 ≤ 255 ∧
    ((rgb888_to_bgr888_tuple 0x123456).2.2 <<< 16 |||
      ((rgb888_to_bgr888_tuple 0x123456).2.1 <<< 8) |||
      (rgb888_to_bgr888_tuple 0x123456).1) = 0x123456 :=
  (rgb888_to_bgr888_correct 0x123456).1 (by decide)

theorem mem_framePairs {a0 a1 : Nat} {p : Nat × Nat} :
    p ∈ framePairs a0 a1 ↔ p.1 < a0 ∧ p.2 < a1 := by
  cases p with
  | mk c r =>
    simp [framePairs, List.mem_flatMap, List.mem_map, List.mem_range]

theorem group_index_inj {a1 c r c' r' : Nat} (hr : r < a1) (hr' : r' < a1)
    (h : c * a1 + r = c' * a1 + r') : c = c' ∧ r = r' := by
  have ha : 0 < a1 := by omega
  have h1 : (c * a1 + r) / a1 = c := by
    rw [Nat.mul_comm c a1, Nat.mul_add_div ha, Nat.div_eq_of_lt hr, Nat.add_zero]
  have h2 : (c' * a1 + r') / a1 = c' := by
    rw [Nat.mul_comm c' a1, Nat.mul_add_div ha, Nat.div_eq_of_lt hr', Nat.add_zero]
  have hc : c = c' := by rw [← h1, ← h2, h]
  subst hc
  exact ⟨rfl, by omega⟩

theorem framePairs_nodup (a0 a1 : Nat) : (framePairs a0 a1).Nodup := by
  unfold framePairs
  rw [List.nodup_flatMap]
  constructor
  · intro c _
    exact (List.nodup_range a1).map fun {r r'} h => by
      simpa using congrArg Prod.snd h
  · apply (List.nodup_range a0).imp
    intro a b hne x hxa hxb
    simp only [List.mem_map, List.mem_range] at hxa hxb
    obtain ⟨r, _, rfl⟩ := hxa
    obtain ⟨r', _, h⟩ := hxb
    exact hne ((congrArg Prod.fst h).symm)

theorem framePairs_pairwise (a0 a1 : Nat) :
    List.Pairwise (fun p q : Nat × Nat => p.1 * a1 + p.2 ≠ q.1 * a1 + q.2)
      (framePairs a0 a1) :=
  (framePairs_nodup a0 a1).imp_of_mem fun hp hq hne heq => by
    obtain ⟨_, hr⟩ := mem_framePairs.mp hp
    obtain ⟨_, hr'⟩ := mem_framePairs.mp hq
    obtain ⟨h1, h2⟩ := group_index_inj hr hr' heq
    exact hne (Prod.ext h1 h2)

theorem frameLoop_isSome_iff (f : ℚ → Nat) (a1 ps : Nat) (grid : Grid)
    (selfie : Bool) :
    ∀ (pairs : List (Nat × Nat)) (st : (Nat → Nat) × Nat),
    (frameLoop f a1 ps grid selfie pairs st).isSome = true ↔
      ∀ p ∈ pairs, (gridGet grid p.1 (sourceRow a1 selfie p.2)).isSome = true := by
  intro pairs
  induction pairs with
  | nil => intro st; simp [frameLoop]
  | cons p rest ih =>
    intro st
    simp only [frameLoop, frameStep]
    cases hg : gridGet grid p.1 (sourceRow a1 selfie p.2) with
    | none => simp [hg]
    | some v =>
      simp only [hg]
      by_cases hc : st.1 (p.1 * a1 + p.2) ≠ cellColor f ps v
      · rw [if_pos hc, ih]
        simp [hg]
      · rw [if_neg hc, ih]
        simp [hg]

theorem frameLoop_preserves (f : ℚ → Nat) (a1 ps : Nat) (grid : Grid)
    (selfie : Bool) :
    ∀ (pairs : List (Nat × Nat)) (st st' : (Nat → Nat) × Nat) (x : Nat),
    frameLoop f a1 ps grid selfie pairs st = some st' →
    (∀ p ∈ pairs, p.1 * a1 + p.2 ≠ x) → st'.1 x = st.1 x := by
  intro pairs
  induction pairs with
  | nil =>
    intro st st' x h _
    cases h
    rfl
  | cons p rest ih =>
    intro st st' x h hx
    simp only [frameLoop, frameStep] at h
    cases hg : gridGet grid p.1 (sourceRow a1 selfie p.2) with
    | none => simp [hg] at h
    | some v =>
      simp only [hg] at h
      by_cases hc : st.1 (p.1 * a1 + p.2) ≠ cellColor f ps v
      · rw [if_pos hc] at h
        have hrest := ih _ st' x h fun q hq => hx q (List.mem_cons_of_mem _ hq)
        rw [hrest]
        exact Function.update_noteq
          (fun e => hx p (List.mem_cons_self _ _) e.symm) _ _
      · rw [if_neg hc] at h
        exact ih _ st' x h fun q hq => hx q (List.mem_cons_of_mem _ hq)

theorem frameLoop_writes (f : ℚ → Nat) (a1 ps : Nat) (grid : Grid)
    (selfie : Bool) :
    ∀ (pairs : List (Nat × Nat)) (st st' : (Nat → Nat) × Nat),
    List.Pairwise (fun p q : Nat × Nat => p.1 * a1 + p.2 ≠ q.1 * a1 + q.2) pairs →
    frameLoop f a1 ps grid selfie pairs st = some st' →
    ∀ p ∈ pairs, ∀ v, gridGet grid p.1 (sourceRow a1 selfie p.2) = some v →
      st'.1 (p.1 * a1 + p.2) = cellColor f ps v := by
  intro pairs
  induction pairs with
  | nil =>
    intro st st' _ _ p hp
    exact absurd hp (List.not_mem_nil p)
  | cons p rest ih =>
    intro st st' hpw h q hq v hv
    obtain ⟨hph, hpt⟩ := List.pairwise_cons.mp hpw
    simp only [frameLoop, frameStep] at h
    rcases List.mem_cons.mp hq with rfl | hq'
    · simp only [hv] at h
      by_cases hc : st.1 (q.1 * a1 + q.2) ≠ cellColor f ps v
      · rw [if_pos hc] at h
        have hpres := frameLoop_preserves f a1 ps grid selfie rest _ st'
          (q.1 * a1 + q.2) h fun p' hp' => (hph p' hp').symm
        exact hpres.trans (Function.update_same _ _ _)
      · rw [if_neg hc] at h
        have hpres := frameLoop_preserves f a1 ps grid selfie rest _ st'
          (q.1 * a1 + q.2) h fun p' hp' => (hph p' hp').symm
        exact hpres.trans (not_ne_iff.mp hc)
    · cases hg : gridGet grid p.1 (sourceRow a1 selfie p.2) with
      | none => simp [hg] at h
      | some w =>
        simp only [hg] at h
        by_cases hc : st.1 (p.1 * a1 + p.2) ≠ cellColor f ps w
        · rw [if_pos hc] at h
          exact ih _ st' hpt h q hq' v hv
        · rw [if_neg hc] at h
          exact ih _ st' hpt h q hq' v hv

theorem frameLoop_stable (f : ℚ → Nat) (a1 ps : Nat) (grid : Grid)
    (selfie : Bool) :
    ∀ (pairs : List (Nat × Nat)) (cells : Nat → Nat) (n : Nat),
    (∀ p ∈ pairs, ∀ v, gridGet grid p.1 (sourceRow a1 selfie p.2) = some v →
      cells (p.1 * a1 + p.2) = cellColor f ps v) →
    (∀ p ∈ pairs, (gridGet grid p.1 (sourceRow a1 selfie p.2)).isSome = true) →
    frameLoop f a1 ps grid selfie pairs (cells, n) = some (cells, n) := by
  intro pairs
  induction pairs with
  | nil => intro cells n _ _; rfl
  | cons p rest ih =>
    intro cells n hcol hsome
    obtain ⟨v, hv⟩ := Option.isSome_iff_exists.mp (hsome p (List.mem_cons_self _ _))
    simp only [frameLoop, frameStep, hv]
    rw [if_neg (not_ne_iff.mpr (hcol p (List.mem_cons_self _ _) v hv))]
    exact ih cells n (fun q hq => hcol q (List.mem_cons_of_mem _ hq))
      (fun q hq => hsome q (List.mem_cons_of_mem _ hq))

/-- C4: `update_image_frame` stores a cell color only when it differs from
the color already stored (wtc_display.py lines 257-258); consequently a
second call with the same grid and selfie flag performs zero cell writes
and returns the image-group fills unchanged. -/
theorem update_image_frame_idempotent (f : ℚ → Nat) (a0 a1 ps : Nat)
    (grid : Grid) (selfie : Bool) (cells : Nat → Nat) (st : (Nat → Nat) × Nat)
    (h : update_image_frame f a0 a1 ps grid selfie cells = some st) :
    update_image_frame f a0 a1 ps grid selfie st.1 = some (st.1, 0) := by
  unfold update_image_frame at h ⊢
  have hsome : ∀ p ∈ framePairs a0 a1,
      (gridGet grid p.1 (sourceRow a1 selfie p.2)).isSome = true := by
    rw [← frameLoop_isSome_iff f a1 ps grid selfie (framePairs a0 a1) (cells, 0), h]
    rfl
  have hwrites := frameLoop_writes f a1 ps grid selfie (framePairs a0 a1)
    (cells, 0) st (framePairs_pairwise a0 a1) h
  exact frameLoop_stable f a1 ps grid selfie (framePairs a0 a1) st.1 0
    (fun p hp v hv => hwrites p hp v hv) hsome

/-- C4 witness: rendering a concrete 2×2 grid twice; the second call
returns the same fills with zero writes. -/
theorem update_image_frame_idempotent_witness :
    update_image_frame (fun q => if q ≤ 0 then 3 else 9) 2 2 100
      [[0, 1], [1, 0]] false
      ((update_image_frame (fun q => if q ≤ 0 then 3 else 9) 2 2 100
          [[0, 1], [1, 0]] false (fun _ => 0)).getD (fun _ => 0, 0)).1 =
    some (((update_image_frame (fun q => if q ≤ 0 then 3 else 9) 2 2 100
        [[0, 1], [1, 0]] false (fun _ => 0)).getD (fun _ => 0, 0)).1, 0) :=
  update_image_frame_idempotent (fun q => if q ≤ 0 then 3 else 9) 2 2 100
    [[0, 1], [1, 0]] false (fun _ => 0) _ (by with_unfolding_all rfl)

/-- C5: for every destination cell, `update_image_frame` reads source index
`(col, row)` when `selfie` is off and `(col, a1 − 1 − row)` when it is on
(wtc_display.py lines 249-252), so after the call the fill stored at group
index `col * a1 + row` is the color of that source cell; in particular the
mirrored read swaps which source column reaches destination row index `0`
versus `a1 − 1`. -/
theorem update_image_frame_source_index (f : ℚ → Nat) (a0 a1 ps : Nat)
    (grid : Grid) (cells : Nat → Nat) (col row : Nat) (v v' : ℚ)
    (st_f st_t : (Nat → Nat) × Nat)
    (hc : col < a0) (hr : row < a1)
    (hf : update_image_frame f a0 a1 ps grid false cells = some st_f)
    (ht : update_image_frame f a0 a1 ps grid true cells = some st_t)
    (hv : gridGet grid col row = some v)
    (hv' : gridGet grid col (a1 - 1 - row) = some v') :
    st_f.1 (col * a1 + row) = cellColor f ps v ∧
    st_t.1 (col * a1 + row) = cellColor f ps v' := by
  unfold update_image_frame at hf ht
  have hmem : (col, row) ∈ framePairs a0 a1 := mem_framePairs.mpr ⟨hc, hr⟩
  constructor
  · exact frameLoop_writes f a1 ps grid false (framePairs a0 a1) (cells, 0)
      st_f (framePairs_pairwise a0 a1) hf (col, row) hmem v hv
  · exact frameLoop_writes f a1 ps grid true (framePairs a0 a1) (cells, 0)
      st_t (framePairs_pairwise a0 a1) ht (col, row) hmem v' hv'

/-- C5 witness: the mapping evaluated on a concrete 2×2 grid at cell
`(col, row) = (0, 0)`, whose selfie source is `(0, 1)`. -/
theorem update_image_frame_source_index_witness :
    (((update_image_frame (fun q => if q ≤ 0 then 3 else 9) 2 2 100
        [[0, 1], [1, 0]] false (fun _ => 0)).getD (fun _ => 0, 0)).1 (0 * 2 + 0)
      = cellColor (fun q => if q ≤ 0 then 3 else 9) 100 0) ∧
    (((update_image_frame (fun q => if q ≤ 0 then 3 else 9) 2 2 100
        [[0, 1], [1, 0]] true (fun _ => 0)).getD (fun _ => 0, 0)).1 (0 * 2 + 0)
      = cellColor (fun q => if q ≤ 0 then 3 else 9) 100 1) :=
  update_image_frame_source_index (fun q => if q ≤ 0 then 3 else 9) 2 2 100
    [[0, 1], [1, 0]] (fun _ => 0) 0 0 0 1 _ _ (by decide) (by decide)
    (by with_unfolding_all rfl) (by with_unfolding_all rfl)
    (by with_unfolding_all decide) (by with_unfolding_all decide)

/-- C9 counterexample: an input grid whose dimensions (3×3) do not match
the configured axis (2×2) is processed without any error: the code never
validates the shape; it only indexes, so an oversized grid is silently
accepted (no `InputShapeError` exists in the code base). -/
theorem update_image_frame_oversized_accepted :
    (update_image_frame (fun _ => 0) 2 2 100 [[0, 0, 0], [0, 0, 0], [0, 0, 0]]
      false (fun _ => 0)).isSome = true := by
  with_unfolding_all decide

/-- C9 (amended): `update_image_frame` performs no dimension validation:
it fails — with the `IndexError` of an out-of-range ulab read, surfaced to
the caller with no retry — exactly when some visited source index is out
of bounds.  Undersized grids therefore fail fast, while oversized grids
are accepted silently. -/
theorem update_image_frame_fails_iff_out_of_bounds (f : ℚ → Nat)
    (a0 a1 ps : Nat) (grid : Grid) (selfie : Bool) (cells : Nat → Nat) :
    (update_image_frame f a0 a1 ps grid selfie cells).isSome = true ↔
      ∀ c < a0, ∀ r < a1,
        (gridGet grid c (sourceRow a1 selfie r)).isSome = true := by
  unfold update_image_frame
  rw [frameLoop_isSome_iff]
  constructor
  · intro h c hc r hr
    exact h (c, r) (mem_framePairs.mpr ⟨hc, hr⟩)
  · intro h p hp
    obtain ⟨hc, hr⟩ := mem_framePairs.mp hp
    exact h p.1 hc p.2 hr

theorem set3_eq (b g r : Nat) :
    ∀ (idx : Nat) (buf : List Nat), idx + 3 ≤ buf.length →
    ((buf.set idx b).set (idx + 1) g).set (idx + 2) r =
      buf.take idx ++ [b, g, r] ++ buf.drop (idx + 3) := by
  intro idx
  induction idx with
  | zero =>
    intro buf h
    cases buf with
    | nil => simp at h
    | cons x0 t0 =>
      cases t0 with
      | nil => simp at h
      | cons x1 t1 =>
        cases t1 with
        | nil => simp at h
        | cons x2 t2 => simp [List.set]
  | succ n ih =>
    intro buf h
    cases buf with
    | nil => simp at h
    | cons x t =>
      have ht : n + 3 ≤ t.length := by simp at h; omega
      show x :: (((t.set n b).set (n + 1) g).set (n + 2) r) =
        (x :: t).take (n + 1) ++ [b, g, r] ++ (x :: t).drop (n + 1 + 3)
      rw [List.take_succ_cons, show n + 1 + 3 = (n + 3) + 1 from rfl,
        List.drop_succ_cons, ih t ht]
      simp

theorem set3_bgr (cells : Nat → Nat) (rowBase c idx : Nat) (buf : List Nat)
    (h : idx + 3 ≤ buf.length) :
    ((buf.set idx (rgb888_to_bgr888_tuple (cells (rowBase + c))).1).set
        (idx + 1) (rgb888_to_bgr888_tuple (cells (rowBase + c))).2.1).set
      (idx + 2) (rgb888_to_bgr888_tuple (cells (rowBase + c))).2.2 =
      buf.take idx ++ bgrBytes (cells (rowBase + c)) ++ buf.drop (idx + 3) :=
  set3_eq _ _ _ idx buf h

theorem take_concat3 {α : Type} (A B C : List α) (n : Nat) (hA : A.length = n)
    (hB : B.length = 3) : (A ++ B ++ C).take (n + 3) = A ++ B :=
  List.take_left' (by simp [hA, hB])

theorem drop_concat3 {α : Type} (A B C : List α) (n k : Nat) (hA : A.length = n)
    (hB : B.length = 3) : (A ++ B ++ C).drop (n + 3 + k) = C.drop k := by
  have h1 : (A ++ B).length = n + 3 := by simp [hA, hB]
  rw [List.drop_append_eq_append_drop, List.drop_eq_nil_of_le (by omega), h1]
  simp only [List.nil_append]
  congr 1
  omega

theorem fillRowBuffer_spec (cells : Nat → Nat) (rowBase : Nat) :
    ∀ (cols : List Nat) (buf : List Nat) (idx : Nat),
      idx + 3 * cols.length ≤ buf.length →
      fillRowBuffer cells rowBase buf idx cols =
        buf.take idx ++
          (cols.flatMap fun c => bgrBytes (cells (rowBase + c))) ++
          buf.drop (idx + 3 * cols.length) := by
  intro cols
  induction cols with
  | nil =>
    intro buf idx h
    simp [fillRowBuffer, List.take_append_drop]
  | cons c rest ih =>
    intro buf idx h
    simp only [List.length_cons] at h
    have hlen3 : idx + 3 ≤ buf.length := by omega
    have htk : (buf.take idx).length = idx := by
      rw [List.length_take]
      exact min_eq_left (by omega)
    simp only [fillRowBuffer]
    rw [set3_bgr cells rowBase c idx buf hlen3]
    rw [ih (buf.take idx ++ bgrBytes (cells (rowBase + c)) ++ buf.drop (idx + 3))
      (idx + 3)
      (by simp [List.length_append, htk, bgrBytes, List.length_drop]; omega)]
    rw [show idx + 3 + 3 * rest.length = (idx + 3) + 3 * rest.length from rfl]
    rw [take_concat3 _ _ _ idx htk (by simp [bgrBytes]),
      drop_concat3 _ _ _ idx (3 * rest.length) htk (by simp [bgrBytes]),
      List.drop_drop]
    rw [show idx + 3 + 3 * rest.length = 3 * rest.length + (idx + 3) from by omega]
    simp only [List.flatMap_cons, List.append_assoc, List.length_cons]
    rw [show idx + 3 * (rest.length + 1) = 3 * rest.length + (idx + 3) from by omega]

theorem fetch_grid_row_eq (a0 a1 : Nat) (cells : Nat → Nat) (row : Nat)
    (selfie : Bool) :
    fetch_grid_row_bgr_colors a0 a1 cells row selfie =
      ((if selfie then (List.range a0).reverse else List.range a0).flatMap
        fun c => bgrBytes (cells (row * a1 + c))) ++
      List.replicate ((4 - 3 * a0 % 4) % 4) 0 := by
  unfold fetch_grid_row_bgr_colors
  have hcols : (if selfie then (List.range a0).reverse else List.range a0).length
      = a0 := by
    cases selfie <;> simp
  rw [fillRowBuffer_spec cells (row * a1) _ _ 0
    (by simp only [hcols, List.length_replicate, bytes_per_row]; omega)]
  rw [List.take_zero, List.nil_append, hcols, List.drop_replicate]
  have hb : bytes_per_row a0 = 3 * a0 + (4 - 3 * a0 % 4) % 4 := rfl
  have hpad : bytes_per_row a0 - (0 + 3 * a0) = (4 - 3 * a0 % 4) % 4 := by
    rw [hb]
    omega
  rw [hpad]

/-- C3: the bitmap encoder emits exactly: `"BM"` (bytes 66, 77), the
little-endian 32-bit file size `54 + h * bytes_per_row w`, two 16-bit zero
reserved fields, the little-endian 32-bit pixel-data offset 54; an info
header with size 40, little-endian 32-bit width and height, 16-bit planes
1 and 16-bit bits-per-pixel 24 followed by 24 zero bytes; and the grid
rows written bottom-to-top, each pixel three bytes in BGR order, each row
zero-padded to `bytes_per_row w = 3w + ((4 − 3w mod 4) mod 4)` bytes. -/
theorem capture_grid_bitmap_layout (a0 a1 : Nat) (cells : Nat → Nat)
    (selfie : Bool) :
    capture_grid_bmp a0 a1 cells selfie =
      [66, 77] ++ pack32 (54 + a1 * bytes_per_row a0) ++ [0, 0, 0, 0] ++
        [54, 0, 0, 0] ++ [40, 0, 0, 0] ++ pack32 a0 ++ pack32 a1 ++ [1, 0] ++
        [24, 0] ++ List.replicate 24 0 ++
        ((List.range a1).reverse).flatMap (fun r =>
          ((if selfie then (List.range a0).reverse else List.range a0).flatMap
            fun c => bgrBytes (cells (r * a1 + c))) ++
          List.replicate ((4 - 3 * a0 % 4) % 4) 0) ∧
    bytes_per_row a0 = 3 * a0 + (4 - 3 * a0 % 4) % 4 := by
  constructor
  · unfold capture_grid_bmp
    simp only [fetch_grid_row_eq]
    norm_num [pack32, pack16]
  · rfl

theorem reverse_range (n : Nat) :
    (List.range n).reverse = (List.range n).map fun i => n - 1 - i := by
  induction n with
  | zero => rfl
  | succ n ih =>
    conv_lhs => rw [List.range_succ]
    rw [List.reverse_append, ih]
    conv_rhs => rw [List.range_succ_eq_map]
    simp only [List.reverse_cons, List.reverse_nil, List.nil_append,
      List.map_cons, List.map_map]
    refine congrArg₂ List.cons (by omega) (List.map_congr_left ?_)
    intro i hi
    simp only [Function.comp_apply, Nat.succ_eq_add_one]
    omega

/-- C6 (amended): the export's selfie mirror reverses the same coordinate
that `update_image_frame`'s selfie read mirrors, so the two mirrors cancel:
a bitmap row fetched with `selfie = true` from a frame rendered with
`selfie = true` is byte-identical to the row fetched with `selfie = false`
from the same grid rendered with `selfie = false`.  The export therefore
depicts the unmirrored scene — the horizontal mirror image of the displayed
CellColorGrid — rather than the displayed image itself. -/
theorem export_mirror_cancels (f : ℚ → Nat) (n ps : Nat) (grid : Grid)
    (cells0 cells0' : Nat → Nat) (row : Nat) (st_t st_f : (Nat → Nat) × Nat)
    (hrow : row < n)
    (hin : ∀ c < n, ∀ r < n, (gridGet grid c r).isSome = true)
    (ht : update_image_frame f n n ps grid true cells0 = some st_t)
    (hf : update_image_frame f n n ps grid false cells0' = some st_f) :
    fetch_grid_row_bgr_colors n n st_t.1 row true =
      fetch_grid_row_bgr_colors n n st_f.1 row false := by
  rw [fetch_grid_row_eq, fetch_grid_row_eq]
  simp only [if_true, if_false]
  congr 1
  rw [reverse_range, List.flatMap_map, List.flatMap_def, List.flatMap_def]
  congr 1
  apply List.map_congr_left
  intro c hc
  simp only [List.mem_range] at hc
  obtain ⟨v, hv⟩ := Option.isSome_iff_exists.mp (hin row hrow c hc)
  have hsrc_t : gridGet grid row (sourceRow n true (n - 1 - c)) = some v := by
    have e : sourceRow n true (n - 1 - c) = c := by
      simp only [sourceRow, if_true]
      omega
    rw [e]
    exact hv
  have hsrc_f : gridGet grid row (sourceRow n false c) = some v := by
    simpa only [sourceRow, if_false] using hv
  have h1 : st_t.1 (row * n + (n - 1 - c)) = cellColor f ps v := by
    unfold update_image_frame at ht
    exact frameLoop_writes f n ps grid true _ _ st_t (framePairs_pairwise n n) ht
      (row, n - 1 - c) (mem_framePairs.mpr ⟨hrow, by omega⟩) v hsrc_t
  have h2 : st_f.1 (row * n + c) = cellColor f ps v := by
    unfold update_image_frame at hf
    exact frameLoop_writes f n ps grid false _ _ st_f (framePairs_pairwise n n) hf
      (row, c) (mem_framePairs.mpr ⟨hrow, hc⟩) v hsrc_f
  rw [h1, h2]

/-- C6 witness: the cancellation evaluated on a concrete 2×2 grid. -/
theorem export_mirror_cancels_witness :
    fetch_grid_row_bgr_colors 2 2
        ((update_image_frame (fun q => if q ≤ 0 then 3 else 9) 2 2 100
            [[0, 1], [0, 1]] true (fun _ => 0)).getD (fun _ => 0, 0)).1 0 true =
      fetch_grid_row_bgr_colors 2 2
        ((update_image_frame (fun q => if q ≤ 0 then 3 else 9) 2 2 100
            [[0, 1], [0, 1]] false (fun _ => 0)).getD (fun _ => 0, 0)).1 0 false :=
  export_mirror_cancels (fun q => if q ≤ 0 then 3 else 9) 2 100
    [[0, 1], [0, 1]] (fun _ => 0) (fun _ => 0) 0 _ _ (by decide)
    (by with_unfolding_all decide) (by with_unfolding_all rfl)
    (by with_unfolding_all rfl)

/-- C6 counterexample: with selfie and image-display mode both active, the
exported bitmap does not depict the displayed CellColorGrid in the same
orientation: on a 2×2 grid whose columns differ, the first exported BGR
triple of row 0 is not the BGR bytes of displayed cell `(0, 0)` but those
of displayed cell `(0, 1)` — the export mirrors the displayed image. -/
theorem export_selfie_not_displayed :
    ((fetch_grid_row_bgr_colors 2 2
        ((update_image_frame (fun q => if q ≤ 0 then 3 else 9) 2 2 100
            [[0, 1], [0, 1]] true (fun _ => 0)).getD (fun _ => 0, 0)).1 0
        true).take 3 ≠
      bgrBytes (((update_image_frame (fun q => if q ≤ 0 then 3 else 9) 2 2 100
          [[0, 1], [0, 1]] true (fun _ => 0)).getD (fun _ => 0, 0)).1
        (0 * 2 + 0))) ∧
    ((fetch_grid_row_bgr_colors 2 2
        ((update_image_frame (fun q => if q ≤ 0 then 3 else 9) 2 2 100
            [[0, 1], [0, 1]] true (fun _ => 0)).getD (fun _ => 0, 0)).1 0
        true).take 3 =
      bgrBytes (((update_image_frame (fun q => if q ≤ 0 then 3 else 9) 2 2 100
          [[0, 1], [0, 1]] true (fun _ => 0)).getD (fun _ => 0, 0)).1
        (0 * 2 + 1))) := by
  with_unfolding_all decide

theorem histoIndex_lt (a0 : Nat) (v : ℚ) (h2 : 2 ≤ a0) : histoIndex a0 v < a0 := by
  have ha : (1 : ℚ) ≤ (a0 : ℚ) - 1 := by
    have : (2 : ℚ) ≤ (a0 : ℚ) := by exact_mod_cast h2
    linarith
  have hbranch : (0 : ℚ) ≤ (a0 : ℚ) - 1 := by linarith
  unfold histoIndex map_range
  rw [if_pos hbranch]
  set m := (v - 0) * ((a0 : ℚ) - 1 - 0) / (1 - 0) + 0 with hm
  have h0 : (0 : ℚ) ≤ max (min m ((a0 : ℚ) - 1)) 0 := le_max_right _ _
  have h1 : max (min m ((a0 : ℚ) - 1)) 0 ≤ (a0 : ℚ) - 1 :=
    max_le (min_le_right _ _) hbranch
  unfold pyInt
  rw [if_neg (by linarith)]
  have hub : ⌊max (min m ((a0 : ℚ) - 1)) 0⌋ ≤ (a0 : ℤ) - 1 := by
    have := Int.floor_le_floor h1
    calc ⌊max (min m ((a0 : ℚ) - 1)) 0⌋ ≤ ⌊(a0 : ℚ) - 1⌋ := this
      _ = (a0 : ℤ) - 1 := by
          rw [show ((a0 : ℚ) - 1) = (((a0 : ℤ) - 1 : ℤ) : ℚ) from by push_cast; ring]
          exact Int.floor_intCast _
  omega

theorem sum_set_incr : ∀ (l : List ℚ) (i : Nat), i < l.length →
    (l.set i (l.getD i 0 + 1)).sum = l.sum + 1 := by
  intro l
  induction l with
  | nil => intro i h; simp at h
  | cons x t ih =>
    intro i h
    cases i with
    | zero =>
      simp [List.sum_cons]
      ring
    | succ n =>
      simp only [List.set_cons_succ, List.getD_cons_succ, List.sum_cons]
      rw [ih n (by simpa using h)]
      ring

theorem histoPairs_length (a0 a1 : Nat) : (histoPairs a0 a1).length = a1 * a0 := by
  unfold histoPairs
  rw [List.length_flatMap]
  simp only [Function.comp_def, List.length_map, List.length_range]
  rw [List.map_const', List.sum_replicate, smul_eq_mul, List.length_range]

theorem buildHisto_length_sum (a0 a1 : Nat) (grid : Grid) (h2 : 2 ≤ a0) :
    (buildHisto a0 a1 grid).length = a0 ∧
    (buildHisto a0 a1 grid).sum = ((a1 * a0 : Nat) : ℚ) := by
  unfold buildHisto
  have key : ∀ (pairs : List (Nat × Nat)) (h0 : List ℚ), h0.length = a0 →
      (pairs.foldl (fun h p =>
        h.set (histoIndex a0 (gridGetD grid p.2 p.1))
          (h.getD (histoIndex a0 (gridGetD grid p.2 p.1)) 0 + 1)) h0).length = a0 ∧
      (pairs.foldl (fun h p =>
        h.set (histoIndex a0 (gridGetD grid p.2 p.1))
          (h.getD (histoIndex a0 (gridGetD grid p.2 p.1)) 0 + 1)) h0).sum =
        h0.sum + ((pairs.length : Nat) : ℚ) := by
    intro pairs
    induction pairs with
    | nil => intro h0 hl; exact ⟨hl, by simp⟩
    | cons p rest ih =>
      intro h0 hl
      simp only [List.foldl_cons, List.length_cons]
      have hidx : histoIndex a0 (gridGetD grid p.2 p.1) < h0.length := by
        rw [hl]; exact histoIndex_lt a0 _ h2
      obtain ⟨ihl, ihs⟩ := ih
        (h0.set (histoIndex a0 (gridGetD grid p.2 p.1))
          (h0.getD (histoIndex a0 (gridGetD grid p.2 p.1)) 0 + 1))
        (by rw [List.length_set, hl])
      refine ⟨ihl, ?_⟩
      rw [ihs, sum_set_incr h0 _ hidx]
      push_cast
      ring
  obtain ⟨hl, hs⟩ := key (histoPairs a0 a1) (List.replicate a0 (0 : ℚ)) (by simp)
  refine ⟨hl, ?_⟩
  rw [hs, histoPairs_length]
  simp

set_option maxRecDepth 4000 in
/-- C8: the bar-height divisor of `update_histo_frame` equals
`np.max(histogram) / (grid_axis[0] − 1)` and is at least one, so the bar
division `histogram[col] / scale` never divides by zero: with the
configured square axes every one of the `a0·a1` samples lands in one of
`a0` bins, so the maximum bin count is at least `a1 ≥ a0 − 1` and the
`≤ 0` fallback branch never fires. -/
theorem histo_scale_correct (a0 a1 : Nat) (grid : Grid)
    (h2 : 2 ≤ a0) (ha : a0 - 1 ≤ a1)
    (_hg : ∀ c < a0, ∀ r < a1, (gridGet grid c r).isSome = true) :
    histo_scale_used a0 a1 grid =
      npMax (buildHisto a0 a1 grid) / ((a0 : ℚ) - 1) ∧
    1 ≤ histo_scale_used a0 a1 grid ∧
    histo_scale_used a0 a1 grid ≠ 0 := by
  obtain ⟨hlen, hsum⟩ := buildHisto_length_sum a0 a1 grid h2
  have ha0 : (0 : ℚ) < (a0 : ℚ) := by
    have : (2 : ℚ) ≤ (a0 : ℚ) := by exact_mod_cast h2
    linarith
  have hmax : ((a1 : ℚ)) ≤ npMax (buildHisto a0 a1 grid) := by
    have hb := List.sum_le_card_nsmul (buildHisto a0 a1 grid)
      (npMax (buildHisto a0 a1 grid)) (fun x hx => le_npMax x hx)
    rw [hsum, hlen] at hb
    have hb' : ((a1 * a0 : Nat) : ℚ) ≤ (a0 : ℚ) * npMax (buildHisto a0 a1 grid) := by
      simpa [nsmul_eq_mul] using hb
    have : (a1 : ℚ) * (a0 : ℚ) ≤ (a0 : ℚ) * npMax (buildHisto a0 a1 grid) := by
      push_cast at hb'
      linarith
    nlinarith
  have hden : (0 : ℚ) < (a0 : ℚ) - 1 := by
    have : (2 : ℚ) ≤ (a0 : ℚ) := by exact_mod_cast h2
    linarith
  have hquot : 1 ≤ npMax (buildHisto a0 a1 grid) / ((a0 : ℚ) - 1) := by
    rw [le_div_iff₀ hden, one_mul]
    have ha' : ((a0 : ℚ) - 1) ≤ (a1 : ℚ) := by
      have := ha
      have hc : ((a0 - 1 : Nat) : ℚ) ≤ (a1 : ℚ) := by exact_mod_cast this
      rw [Nat.cast_sub (by omega)] at hc
      simpa using hc
    linarith
  have hpos : ¬ npMax (buildHisto a0 a1 grid) / ((a0 : ℚ) - 1) ≤ 0 := by
    intro hle
    linarith
  unfold histo_scale_used
  rw [if_neg hpos]
  exact ⟨rfl, hquot, by linarith⟩

/-- C8 witness: the divisor on a concrete all-zero 2×2 grid, whose
histogram is `[4, 0]` and whose divisor is `4`. -/
theorem histo_scale_correct_witness :
    (histo_scale_used 2 2 [[0, 0], [0, 0]] =
      npMax (buildHisto 2 2 [[0, 0], [0, 0]]) / ((2 : ℚ) - 1)) ∧
    1 ≤ histo_scale_used 2 2 [[0, 0], [0, 0]] ∧
    histo_scale_used 2 2 [[0, 0], [0, 0]] ≠ 0 :=
  histo_scale_correct 2 2 [[0, 0], [0, 0]] (by decide) (by decide)
    (by with_unfolding_all decide)

end WTC
